import Mathlib

/-!
Verification of the stock-data repository's cache manager
(`src/cache_manager.py`) and data service (`src/data_fetching/data_fetcher.py`).

The SQLite table `stock_data` is modelled as a list of rows; dates are
modelled as integers (days), which is order-isomorphic to the ISO `YYYY-MM-DD`
strings the code stores and compares (both through SQL `DATE` comparison and
through Python `datetime.date` ordering).  Prices (SQL `REAL`) are modelled as
rationals; the code never computes with them, it only stores and returns them.
-/

namespace Stock

/-- One OHLCV data point as it appears in a pandas DataFrame handed to or
returned by the cache (index = date, columns Open/High/Low/Close and an
optional Volume, per `_dataframe_to_rows` / `_rows_to_dataframe`). -/
structure PricePoint where
  date : Int
  open_price : Rat
  high_price : Rat
  low_price : Rat
  close_price : Rat
  volume : Option Int
deriving DecidableEq

/-- One row of the `stock_data` table created by `CacheManager._init_database`:
`(ticker, interval, date, open_price, high_price, low_price, close_price,
volume, cached_at)`.  The `id` autoincrement column is omitted: no query in
the code reads it. -/
structure Row where
  ticker : String
  interval : String
  date : Int
  open_price : Rat
  high_price : Rat
  low_price : Rat
  close_price : Rat
  volume : Option Int
  cached_at : String
deriving DecidableEq

/-- The persistent state: the rows of the `stock_data` table. -/
abbrev Store := List Row

/-- `WHERE ticker = ? AND interval = ?` row predicate. -/
def sameKey (t i : String) (r : Row) : Bool :=
  r.ticker == t && r.interval == i

/-- `CacheManager._get_cached_date_range`:
`SELECT MIN(date), MAX(date) FROM stock_data WHERE ticker = ? AND interval = ?`,
returning `None` when the key has no rows (the `if row and row[0] and row[1]`
guard). -/
def get_cached_date_range (s : Store) (t i : String) : Option (Int × Int) :=
  match (s.filter (sameKey t i)).map Row.date with
  | [] => none
  | d :: ds => some (ds.foldl min d, ds.foldl max d)

/-- `CacheManager._check_data_coverage`: true iff a cached range exists and
`cached_start <= requested_start and cached_end >= requested_end`. -/
def check_data_coverage (s : Store) (t i : String) (a b : Int) : Bool :=
  match get_cached_date_range s t i with
  | none => false
  | some (mn, mx) => decide (mn ≤ a) && decide (b ≤ mx)

/-- The row filter of the `SELECT` in `get_cached_data`:
`WHERE ticker = ? AND interval = ? AND date >= DATE(?) AND date <= DATE(?)`. -/
def inWindow (t i : String) (a b : Int) (r : Row) : Bool :=
  sameKey t i r && decide (a ≤ r.date) && decide (r.date ≤ b)

/-- Row ordering used by `ORDER BY date ASC`. -/
def dateLe (r r' : Row) : Prop := r.date ≤ r'.date

instance : DecidableRel dateLe := fun r r' => inferInstanceAs (Decidable (r.date ≤ r'.date))

instance : IsTotal Row dateLe := ⟨fun a b => Int.le_total a.date b.date⟩

instance : IsTrans Row dateLe := ⟨fun _ _ _ h h' => le_trans h h'⟩

/-- `_rows_to_dataframe` keeps date, OHLC and the optional volume of each row
and drops `ticker`, `interval` and `cached_at`. -/
def toPoint (r : Row) : PricePoint :=
  ⟨r.date, r.open_price, r.high_price, r.low_price, r.close_price, r.volume⟩

/-- `CacheManager.get_cached_data`: `None` unless `_check_data_coverage` holds;
otherwise the rows of the key inside the closed window, `ORDER BY date ASC`,
converted by `_rows_to_dataframe`; `None` again when that result set is empty
(the `if not rows` guard; the later `len(df) > 0` test cannot fail once
`rows` is non-empty). -/
def get_cached_data (s : Store) (t i : String) (a b : Int) : Option (List PricePoint) :=
  if check_data_coverage s t i a b then
    match List.insertionSort dateLe (s.filter (inWindow t i a b)) with
    | [] => none
    | rs => some (rs.map toPoint)
  else none

/-- The row `_dataframe_to_rows` builds for one DataFrame entry, prefixed by
the key as in `cache_data`'s `(ticker, interval) + row`; `now` is the single
`datetime.now().isoformat()` stamp taken for the whole batch. -/
def mkRow (t i now : String) (p : PricePoint) : Row :=
  ⟨t, i, p.date, p.open_price, p.high_price, p.low_price, p.close_price, p.volume, now⟩

/-- Conflict predicate of the `UNIQUE(ticker, interval, date)` constraint. -/
def conflicts (r x : Row) : Bool :=
  x.ticker == r.ticker && x.interval == r.interval && x.date == r.date

/-- One `INSERT OR REPLACE INTO stock_data ...` statement: the row replaces
any existing row with the same `(ticker, interval, date)`. -/
def insertOrReplace (s : Store) (r : Row) : Store :=
  s.filter (fun x => !(conflicts r x)) ++ [r]

/-- All writes of a batch applied in order. -/
def applyAll (s : Store) (ws : List Row) : Store :=
  ws.foldl insertOrReplace s

/-- The uncommitted transaction of `cache_data`'s `with sqlite3.connect(...)`
block: the `INSERT OR REPLACE` statements run one at a time against the
transaction state; `fail w = true` models the statement for `w` raising, which
aborts the transaction (`none`), discarding every write already executed. -/
def execWrites (s : Store) (ws : List Row) (fail : Row → Bool) : Option Store :=
  match ws with
  | [] => some s
  | w :: rest => if fail w then none else execWrites (insertOrReplace s w) rest fail

/-- `CacheManager.cache_data`: empty DataFrames are rejected up front; the
batch runs inside one connection context, so either the whole transaction
commits or the context manager rolls it back; the surrounding
`try/except` logs any failure and returns instead of raising. -/
def cache_data (s : Store) (t i : String) (pts : List PricePoint) (now : String)
    (fail : Row → Bool) : Store :=
  if pts.isEmpty then s
  else
    match execWrites s (pts.map (mkRow t i now)) fail with
    | some s' => s'
    | none => s

/-- Result of `CacheManager.clear_cache`: the table afterwards, and the value
the method returns to its caller (the Python method body contains no `return`
statement, so that value is always `None`). -/
structure ClearOutcome where
  store : Store
  returned : Option Nat
deriving DecidableEq

/-- Python truthiness of an optional-string argument, as tested by
`if ticker and interval: ... elif ticker: ...`: `None` and the empty string
are both falsy. -/
def argVal : Option String → Option String
  | some s => if s == "" then none else some s
  | none => none

/-- `CacheManager.clear_cache`: four `DELETE` variants selected by truthiness
of the two optional arguments; no variant returns a row count. -/
def clear_cache (s : Store) (tickerArg intervalArg : Option String) : ClearOutcome :=
  match argVal tickerArg, argVal intervalArg with
  | some t, some i => ⟨s.filter (fun r => !(r.ticker == t && r.interval == i)), none⟩
  | some t, none => ⟨s.filter (fun r => !(r.ticker == t)), none⟩
  | none, some i => ⟨s.filter (fun r => !(r.interval == i)), none⟩
  | none, none => ⟨[], none⟩

/-! ### Python string builtins used by the service

`str.upper`, `str.strip`, `str.endswith` and `int(...)` are modelled over the
character list of a `String`.  `upper` uses `Char.toUpper` (the ASCII case
map, which is what the code relies on for ticker symbols); `strip` removes
leading and trailing whitespace; `int` is modelled on its decimal-literal
core: an optional sign followed by one or more digits. -/

/-- `str.upper()`. -/
def str_upper (s : String) : String := ⟨s.data.map Char.toUpper⟩

/-- Trim whitespace from both ends of a character list. -/
def trimChars (l : List Char) : List Char :=
  ((l.dropWhile Char.isWhitespace).reverse.dropWhile Char.isWhitespace).reverse

/-- `str.strip()`. -/
def str_strip (s : String) : String := ⟨trimChars s.data⟩

/-- The ticker normalization `ticker.upper().strip()` performed by
`DataFetcher._validate_parameters`. -/
def normalize_ticker (s : String) : String := str_strip (str_upper s)

/-- `str.endswith(suffix)`. -/
def str_endswith (s suffix : String) : Bool := suffix.data.isSuffixOf s.data

/-- Digit-string value accumulator for `int(...)`. -/
def digits_core : List Char → Nat → Option Nat
  | [], a => some a
  | c :: rest, a =>
    if c.isDigit then digits_core rest (a * 10 + (c.toNat - 48)) else none

/-- `int(s)` on an unsigned decimal literal: `none` models `ValueError`. -/
def py_digits? (l : List Char) : Option Nat :=
  match l with
  | [] => none
  | _ => digits_core l 0

/-- `int(s)`: optional sign, then digits; `none` models `ValueError`. -/
def py_int? (l : List Char) : Option Int :=
  match l with
  | '-' :: rest => (py_digits? rest).map (fun n => -(n : Int))
  | '+' :: rest => (py_digits? rest).map (fun n => (n : Int))
  | _ => (py_digits? l).map (fun n => (n : Int))

/-- Python slice `s[:-n]`. -/
def drop_last (l : List Char) (n : Nat) : List Char := l.take (l.length - n)

/-! ### The service layer (`src/data_fetching/data_fetcher.py`) -/

/-- Errors `StockDataService.get_stock_data` can raise: `ValueError` from
parameter validation or period parsing, and the wrapped upstream `Exception`
re-raised when the fetch fails and no cached fallback exists. -/
inductive SvcError where
  | valueError : String → SvcError
  | upstreamError : String → SvcError
deriving DecidableEq

/-- `DataFetcher._validate_parameters`: reject empty tickers, normalize the
ticker with `upper().strip()`, require the interval to be one of
`['1d', '1wk', '1mo']` and the period string to have length at least 2. -/
def validate_parameters (ticker period interval : String) :
    Except SvcError (String × String × String) :=
  if ticker == "" then .error (.valueError "Ticker must be a non-empty string")
  else
    let t := normalize_ticker ticker
    if !(interval == "1d" || interval == "1wk" || interval == "1mo") then
      .error (.valueError "Interval must be one of 1d 1wk 1mo")
    else if period.data.length < 2 then
      .error (.valueError "Period must be in format like 10y 5y 2y")
    else .ok (t, period, interval)

/-- `StockDataService._calculate_date_range` (textually identical to
`DataFetcher._calculate_date_range`): the window always ends at `today`;
a `'y'` suffix subtracts `years * 365` days, a `'mo'` suffix
`months * 30` days, a `'d'` suffix that many days; any other suffix raises
`ValueError`, as does a non-numeric count (from `int(...)`). -/
def calculate_date_range (period : String) (today : Int) : Except SvcError (Int × Int) :=
  if str_endswith period "y" then
    match py_int? (drop_last period.data 1) with
    | some y => .ok (today - y * 365, today)
    | none => .error (.valueError "invalid literal for int")
  else if str_endswith period "mo" then
    match py_int? (drop_last period.data 2) with
    | some m => .ok (today - m * 30, today)
    | none => .error (.valueError "invalid literal for int")
  else if str_endswith period "d" then
    match py_int? (drop_last period.data 1) with
    | some d => .ok (today - d, today)
    | none => .error (.valueError "invalid literal for int")
  else .error (.valueError "Unsupported period format")

deriving instance DecidableEq for Except

/-- Outcome of one `StockDataService.get_stock_data` call: the value returned
or the exception raised, the table contents afterwards, and whether
`DataFetcher.fetch_from_api` was invoked. -/
structure SvcOutcome where
  result : Except SvcError (List PricePoint)
  store : Store
  fetcherCalled : Bool
deriving DecidableEq

/-- `StockDataService.get_stock_data`.  The upstream call is modelled by the
parameter `fetch`: the outcome `fetch_from_api` would produce for this request
(`.error` covers every exception it raises, including its wrapping of empty
or invalid API responses).  `now` is the `cached_at` stamp `cache_data` would
use, and `fail` models per-statement write failures inside `cache_data`. -/
def get_stock_data (ticker period interval : String) (forceRefresh : Bool)
    (today : Int) (store : Store) (fetch : Except String (List PricePoint))
    (now : String) (fail : Row → Bool) : SvcOutcome :=
  match validate_parameters ticker period interval with
  | .error e => ⟨.error e, store, false⟩
  | .ok (t, p, i) =>
    match calculate_date_range p today with
    | .error e => ⟨.error e, store, false⟩
    | .ok (startD, endD) =>
      let hit := if forceRefresh then none else get_cached_data store t i startD endD
      match hit with
      | some pts => ⟨.ok pts, store, false⟩
      | none =>
        match fetch with
        | .ok fresh =>
          let store' := cache_data store t i fresh now fail
          let filtered := fresh.filter (fun q => decide (startD ≤ q.date) && decide (q.date ≤ endD))
          ⟨.ok filtered, store', true⟩
        | .error msg =>
          match get_cached_data store t i startD endD with
          | some pts => ⟨.ok pts, store, true⟩
          | none => ⟨.error (.upstreamError msg), store, true⟩

/-! ### Helper lemmas -/

theorem foldl_min_le_iff (ds : List Int) (d a : Int) :
    ds.foldl min d ≤ a ↔ d ≤ a ∨ ∃ x ∈ ds, x ≤ a := by
  induction ds generalizing d with
  | nil => simp
  | cons c cs ih =>
    simp only [List.foldl_cons, ih, min_le_iff, List.mem_cons]
    constructor
    · rintro ((h | h) | ⟨x, hx, hxa⟩)
      · exact Or.inl h
      · exact Or.inr ⟨c, Or.inl rfl, h⟩
      · exact Or.inr ⟨x, Or.inr hx, hxa⟩
    · rintro (h | ⟨x, (rfl | hx), hxa⟩)
      · exact Or.inl (Or.inl h)
      · exact Or.inl (Or.inr hxa)
      · exact Or.inr ⟨x, hx, hxa⟩

theorem le_foldl_max_iff (ds : List Int) (d b : Int) :
    b ≤ ds.foldl max d ↔ b ≤ d ∨ ∃ x ∈ ds, b ≤ x := by
  induction ds generalizing d with
  | nil => simp
  | cons c cs ih =>
    simp only [List.foldl_cons, ih, le_max_iff, List.mem_cons]
    constructor
    · rintro ((h | h) | ⟨x, hx, hxa⟩)
      · exact Or.inl h
      · exact Or.inr ⟨c, Or.inl rfl, h⟩
      · exact Or.inr ⟨x, Or.inr hx, hxa⟩
    · rintro (h | ⟨x, (rfl | hx), hxa⟩)
      · exact Or.inl (Or.inl h)
      · exact Or.inl (Or.inr hxa)
      · exact Or.inr ⟨x, hx, hxa⟩

/-! ### C2: the coverage test -/

/-- C2: for every key `(ticker, interval)` and closed range `[start, end]`,
`_check_data_coverage` is true iff at least one row is stored for the key and
the stored minimum date is `≤ start` and the stored maximum date is `≥ end`
(equivalently: some stored date is `≤ start` and some stored date is
`≥ end`); equal boundary dates count as covered, and the check is false when
the key has no rows. -/
theorem coverage_iff_min_max (s : Store) (t i : String) (a b : Int) :
    check_data_coverage s t i a b = true ↔
      s.filter (sameKey t i) ≠ [] ∧
      (∃ r ∈ s, sameKey t i r = true ∧ r.date ≤ a) ∧
      (∃ r ∈ s, sameKey t i r = true ∧ b ≤ r.date) := by
  unfold check_data_coverage get_cached_date_range
  cases hm : (s.filter (sameKey t i)).map Row.date with
  | nil =>
    have hf : s.filter (sameKey t i) = [] := by
      exact List.map_eq_nil_iff.mp hm
    simp only [hf]
    constructor
    · intro h; cases h
    · rintro ⟨h, _, _⟩; exact absurd rfl h
  | cons d ds =>
    have hmem : ∀ x : Int, (x = d ∨ x ∈ ds) ↔ ∃ r ∈ s, sameKey t i r = true ∧ r.date = x := by
      intro x
      have : x ∈ (s.filter (sameKey t i)).map Row.date ↔ (x = d ∨ x ∈ ds) := by
        rw [hm]; simp [List.mem_cons]
      rw [← this]
      simp only [List.mem_map, List.mem_filter]
      constructor
      · rintro ⟨r, ⟨hr, hk⟩, hd⟩; exact ⟨r, hr, hk, hd⟩
      · rintro ⟨r, hr, hk, hd⟩; exact ⟨r, ⟨hr, hk⟩, hd⟩
    have hne : s.filter (sameKey t i) ≠ [] := by
      intro hf; rw [hf] at hm; cases hm
    simp only [Bool.and_eq_true, decide_eq_true_eq]
    constructor
    · rintro ⟨hmin, hmax⟩
      refine ⟨hne, ?_, ?_⟩
      · rcases (foldl_min_le_iff ds d a).mp hmin with h | ⟨x, hx, hxa⟩
        · rcases (hmem d).mp (Or.inl rfl) with ⟨r, hr, hk, hd⟩
          exact ⟨r, hr, hk, hd ▸ h⟩
        · rcases (hmem x).mp (Or.inr hx) with ⟨r, hr, hk, hd⟩
          exact ⟨r, hr, hk, hd ▸ hxa⟩
      · rcases (le_foldl_max_iff ds d b).mp hmax with h | ⟨x, hx, hxb⟩
        · rcases (hmem d).mp (Or.inl rfl) with ⟨r, hr, hk, hd⟩
          exact ⟨r, hr, hk, hd ▸ h⟩
        · rcases (hmem x).mp (Or.inr hx) with ⟨r, hr, hk, hd⟩
          exact ⟨r, hr, hk, hd ▸ hxb⟩
    · rintro ⟨-, ⟨r₁, hr₁, hk₁, hd₁⟩, ⟨r₂, hr₂, hk₂, hd₂⟩⟩
      constructor
      · exact (foldl_min_le_iff ds d a).mpr (by
          rcases (hmem r₁.date).mpr ⟨r₁, hr₁, hk₁, rfl⟩ with h | h
          · exact Or.inl (h ▸ hd₁)
          · exact Or.inr ⟨r₁.date, h, hd₁⟩)
      · exact (le_foldl_max_iff ds d b).mpr (by
          rcases (hmem r₂.date).mpr ⟨r₂, hr₂, hk₂, rfl⟩ with h | h
          · exact Or.inl (h ▸ hd₂)
          · exact Or.inr ⟨r₂.date, h, hd₂⟩)

/-! ### C3: the cache read -/

/-- Ordering of returned data points by date. -/
def pointDateLe (p q : PricePoint) : Prop := p.date ≤ q.date

/-- C3: `get_cached_data` returns `None` when coverage fails; it returns
`None` when the covering range exists but no stored row falls inside the
requested window; and any returned list consists of exactly the stored rows
of the key whose dates lie in the closed window, sorted ascending by date;
when coverage holds and the window is inhabited the result is not `None`. -/
theorem get_cached_data_spec (s : Store) (t i : String) (a b : Int) :
    (check_data_coverage s t i a b = false → get_cached_data s t i a b = none) ∧
    (s.filter (inWindow t i a b) = [] → get_cached_data s t i a b = none) ∧
    (∀ l, get_cached_data s t i a b = some l →
        List.Sorted pointDateLe l ∧
        l.Perm ((s.filter (inWindow t i a b)).map toPoint)) ∧
    (check_data_coverage s t i a b = true → s.filter (inWindow t i a b) ≠ [] →
        get_cached_data s t i a b ≠ none) := by
  refine ⟨?_, ?_, ?_, ?_⟩
  · intro h
    unfold get_cached_data
    rw [h]
    rfl
  · intro h
    unfold get_cached_data
    rw [h]
    cases check_data_coverage s t i a b <;> rfl
  · intro l hl
    unfold get_cached_data at hl
    cases hcov : check_data_coverage s t i a b with
    | false => rw [hcov] at hl; cases hl
    | true =>
      rw [hcov, if_pos rfl] at hl
      rcases hs : List.insertionSort dateLe (s.filter (inWindow t i a b)) with _ | ⟨r, rs⟩
      · rw [hs] at hl; cases hl
      · rw [hs] at hl
        have hl' : l = (r :: rs).map toPoint := by
          exact ((Option.some.injEq _ _).mp hl.symm)
        subst hl'
        constructor
        · have hsorted : List.Sorted dateLe (r :: rs) := by
            rw [← hs]; exact List.sorted_insertionSort dateLe _
          exact List.Pairwise.map toPoint (fun x y hxy => hxy) hsorted
        · have hperm : (r :: rs).Perm (s.filter (inWindow t i a b)) := by
            rw [← hs]; exact List.perm_insertionSort dateLe _
          exact hperm.map toPoint
  · intro hcov hne
    unfold get_cached_data
    rw [hcov, if_pos rfl]
    rcases hs : List.insertionSort dateLe (s.filter (inWindow t i a b)) with _ | ⟨r, rs⟩
    · exfalso
      have := List.perm_insertionSort dateLe (s.filter (inWindow t i a b))
      rw [hs] at this
      exact hne (this.nil_eq).symm
    · simp

/-- Witness for C3 at a concrete store: the returned rows are the in-window
rows in ascending date order. -/
theorem get_cached_data_spec_witness :
    List.Sorted pointDateLe [⟨5, 1, 2, 0, 1, some 10⟩, ⟨7, 3, 4, 2, 3, none⟩] ∧
    List.Perm [⟨5, 1, 2, 0, 1, some 10⟩, ⟨7, 3, 4, 2, 3, none⟩]
      ((([⟨"AAPL", "1d", 7, 3, 4, 2, 3, none, "t0"⟩, ⟨"AAPL", "1d", 5, 1, 2, 0, 1, some 10, "t0"⟩] :
        Store).filter (inWindow "AAPL" "1d" 5 7)).map toPoint) :=
  (get_cached_data_spec
      [⟨"AAPL", "1d", 7, 3, 4, 2, 3, none, "t0"⟩, ⟨"AAPL", "1d", 5, 1, 2, 0, 1, some 10, "t0"⟩]
      "AAPL" "1d" 5 7).2.2.1
    [⟨5, 1, 2, 0, 1, some 10⟩, ⟨7, 3, 4, 2, 3, none⟩] (by decide)

/-! ### C5/C6: writing batches -/

/-- The stored row of a key and date: first match in the table. -/
def find_row (s : Store) (t i : String) (d : Int) : Option Row :=
  s.find? (fun r => sameKey t i r && r.date == d)

theorem rowMatch_iff (t i : String) (d : Int) (r : Row) :
    (sameKey t i r && r.date == d) = true ↔
      r.ticker = t ∧ r.interval = i ∧ r.date = d := by
  simp [sameKey, Bool.and_eq_true, beq_iff_eq, and_assoc]

theorem find?_filter_of_imp (l : List Row) (p q : Row → Bool)
    (h : ∀ x, p x = true → q x = true) :
    (l.filter q).find? p = l.find? p := by
  induction l with
  | nil => rfl
  | cons r rs ih =>
    by_cases hp : p r = true
    · rw [List.filter_cons, h r hp]
      simp only [if_true]
      rw [List.find?_cons_of_pos _ hp, List.find?_cons_of_pos _ hp]
    · rw [List.find?_cons_of_neg _ hp, List.filter_cons]
      by_cases hq : q r = true
      · rw [hq]
        simp only [if_true]
        rw [List.find?_cons_of_neg _ hp, ih]
      · rw [Bool.not_eq_true] at hq
        rw [hq]
        simp only [Bool.false_eq_true, if_false]
        exact ih

theorem find_row_insertOrReplace (s : Store) (r : Row) (t i : String) (d : Int) :
    find_row (insertOrReplace s r) t i d =
      if r.ticker = t ∧ r.interval = i ∧ r.date = d then some r
      else find_row s t i d := by
  unfold find_row insertOrReplace
  rw [List.find?_append]
  by_cases hk : r.ticker = t ∧ r.interval = i ∧ r.date = d
  · rw [if_pos hk]
    have h1 : (s.filter (fun x => !(conflicts r x))).find?
        (fun r' => sameKey t i r' && r'.date == d) = none := by
      rw [List.find?_eq_none]
      intro x hx
      rcases List.mem_filter.mp hx with ⟨-, hxc⟩
      intro hpx
      rcases (rowMatch_iff t i d x).mp hpx with ⟨hxt, hxi, hxd⟩
      have : conflicts r x = true := by
        simp [conflicts, beq_iff_eq, hxt, hxi, hxd, hk.1, hk.2.1, hk.2.2]
      rw [this] at hxc
      cases hxc
    rw [h1]
    have h2 : (sameKey t i r && r.date == d) = true := (rowMatch_iff t i d r).mpr hk
    simp [List.find?, h2]
  · rw [if_neg hk]
    have h2 : (sameKey t i r && r.date == d) = false := by
      rw [← Bool.not_eq_true]
      intro hc
      exact hk ((rowMatch_iff t i d r).mp hc)
    rw [List.find?_cons_of_neg _ (by rw [h2]; exact Bool.false_ne_true)]
    have h3 : (s.filter (fun x => !(conflicts r x))).find?
        (fun r' => sameKey t i r' && r'.date == d) =
        s.find? (fun r' => sameKey t i r' && r'.date == d) := by
      apply find?_filter_of_imp
      intro x hpx
      rcases (rowMatch_iff t i d x).mp hpx with ⟨hxt, hxi, hxd⟩
      have : conflicts r x = false := by
        rw [← Bool.not_eq_true]
        intro hc
        apply hk
        simp only [conflicts, Bool.and_eq_true, beq_iff_eq] at hc
        exact ⟨hc.1.1 ▸ hxt.symm ▸ rfl, hc.1.2 ▸ hxi.symm ▸ rfl, hc.2 ▸ hxd.symm ▸ rfl⟩
      simp [this]
    rw [h3]
    cases s.find? (fun r' => sameKey t i r' && r'.date == d) <;> rfl

theorem find_row_applyAll (s : Store) (ws : List Row) (t i : String) (d : Int) :
    find_row (applyAll s ws) t i d =
      (ws.reverse.find? (fun r => sameKey t i r && r.date == d)).or (find_row s t i d) := by
  induction ws generalizing s with
  | nil => simp [applyAll]
  | cons w rest ih =>
    have h1 : applyAll s (w :: rest) = applyAll (insertOrReplace s w) rest := rfl
    rw [h1, ih, List.reverse_cons, List.find?_append, Option.or_assoc]
    congr 1
    rw [find_row_insertOrReplace]
    by_cases hk : w.ticker = t ∧ w.interval = i ∧ w.date = d
    · rw [if_pos hk]
      have h2 : (sameKey t i w && w.date == d) = true := (rowMatch_iff t i d w).mpr hk
      simp [List.find?, h2, Option.or]
    · rw [if_neg hk]
      have h2 : (sameKey t i w && w.date == d) = false := by
        rw [← Bool.not_eq_true]
        intro hc
        exact hk ((rowMatch_iff t i d w).mp hc)
      simp [List.find?, h2, Option.or]

theorem execWrites_noFail (s : Store) (ws : List Row) :
    execWrites s ws (fun _ => false) = some (applyAll s ws) := by
  induction ws generalizing s with
  | nil => rfl
  | cons w rest ih => simp [execWrites, applyAll, ih, List.foldl_cons]

theorem cache_data_noFail (s : Store) (t i : String) (pts : List PricePoint) (now : String) :
    cache_data s t i pts now (fun _ => false) = applyAll s (pts.map (mkRow t i now)) := by
  unfold cache_data
  cases hp : pts with
  | nil => simp [applyAll]
  | cons p ps =>
    simp only [List.isEmpty_cons, if_false, Bool.false_eq_true]
    rw [execWrites_noFail]

/-- At most one stored row per `(ticker, interval, date)`: the invariant the
`UNIQUE(ticker, interval, date)` constraint keeps. -/
def KeyUnique (s : Store) : Prop :=
  s.Pairwise (fun r r' => ¬(r.ticker = r'.ticker ∧ r.interval = r'.interval ∧ r.date = r'.date))

theorem keyUnique_insertOrReplace (s : Store) (r : Row) (h : KeyUnique s) :
    KeyUnique (insertOrReplace s r) := by
  unfold KeyUnique insertOrReplace
  rw [List.pairwise_append]
  refine ⟨h.filter _, List.pairwise_singleton _ _, ?_⟩
  intro x hx y hy
  rcases List.mem_filter.mp hx with ⟨-, hxc⟩
  rcases List.mem_singleton.mp hy with rfl
  intro hc
  have : conflicts y x = true := by
    simp [conflicts, beq_iff_eq, hc.1, hc.2.1, hc.2.2]
  rw [this] at hxc
  cases hxc

theorem keyUnique_applyAll (s : Store) (ws : List Row) (h : KeyUnique s) :
    KeyUnique (applyAll s ws) := by
  induction ws generalizing s with
  | nil => exact h
  | cons w rest ih => exact ih _ (keyUnique_insertOrReplace s w h)

/-- C5: writing batch `A` and then batch `B` for the same key leaves, for any
date `d` written by both, exactly the row of `B`'s last point with date `d`
(values and all), and keeps at most one stored row per
`(ticker, interval, date)`. -/
theorem cache_data_last_write_wins (s : Store) (t i nowA nowB : String)
    (A B : List PricePoint) (d : Int) (pB : PricePoint)
    (hu : KeyUnique s)
    (_hdA : ∃ p ∈ A, p.date = d)
    (hlast : B.reverse.find? (fun q => q.date == d) = some pB) :
    find_row
        (cache_data (cache_data s t i A nowA (fun _ => false)) t i B nowB (fun _ => false))
        t i d = some (mkRow t i nowB pB) ∧
    KeyUnique
        (cache_data (cache_data s t i A nowA (fun _ => false)) t i B nowB (fun _ => false)) := by
  rw [cache_data_noFail, cache_data_noFail]
  constructor
  · rw [find_row_applyAll]
    have hmap : (B.map (mkRow t i nowB)).reverse.find?
        (fun r => sameKey t i r && r.date == d) = some (mkRow t i nowB pB) := by
      rw [← List.map_reverse, List.find?_map]
      have hcomp : ((fun r => sameKey t i r && r.date == d) ∘ mkRow t i nowB) =
          (fun q : PricePoint => q.date == d) := by
        funext q
        simp [Function.comp, sameKey, mkRow]
      rw [hcomp, hlast]
      rfl
    rw [hmap]
    rfl
  · exact keyUnique_applyAll _ _ (keyUnique_applyAll _ _ hu)

/-- Witness for C5: the second batch's value for the shared date 5 is what
remains stored. -/
theorem cache_data_last_write_wins_witness :
    find_row
        (cache_data
          (cache_data [] "AAPL" "1d" [⟨5, 1, 1, 1, 1, none⟩] "t1" (fun _ => false))
          "AAPL" "1d" [⟨5, 2, 2, 2, 2, some 7⟩, ⟨6, 3, 3, 3, 3, none⟩] "t2" (fun _ => false))
        "AAPL" "1d" 5 = some (mkRow "AAPL" "1d" "t2" ⟨5, 2, 2, 2, 2, some 7⟩) ∧
    KeyUnique
        (cache_data
          (cache_data [] "AAPL" "1d" [⟨5, 1, 1, 1, 1, none⟩] "t1" (fun _ => false))
          "AAPL" "1d" [⟨5, 2, 2, 2, 2, some 7⟩, ⟨6, 3, 3, 3, 3, none⟩] "t2" (fun _ => false)) :=
  cache_data_last_write_wins [] "AAPL" "1d" "t1" "t2"
    [⟨5, 1, 1, 1, 1, none⟩] [⟨5, 2, 2, 2, 2, some 7⟩, ⟨6, 3, 3, 3, 3, none⟩] 5
    ⟨5, 2, 2, 2, 2, some 7⟩ (by constructor) ⟨⟨5, 1, 1, 1, 1, none⟩, by decide⟩ (by decide)

theorem execWrites_isNone_iff (s : Store) (ws : List Row) (fail : Row → Bool) :
    execWrites s ws fail = none ↔ ∃ r ∈ ws, fail r = true := by
  induction ws generalizing s with
  | nil => simp [execWrites]
  | cons w rest ih =>
    by_cases hw : fail w = true
    · simp [execWrites, hw]
    · rw [Bool.not_eq_true] at hw
      simp [execWrites, hw, ih]

theorem execWrites_ok (s : Store) (ws : List Row) (fail : Row → Bool)
    (h : ∀ r ∈ ws, fail r = false) :
    execWrites s ws fail = some (applyAll s ws) := by
  induction ws generalizing s with
  | nil => rfl
  | cons w rest ih =>
    have hw : fail w = false := h w (List.mem_cons_self w rest)
    simp only [execWrites, hw, Bool.false_eq_true, if_false, applyAll, List.foldl_cons]
    exact ih _ (fun r hr => h r (List.mem_cons_of_mem w hr))

/-- C6: for a non-empty batch the write is all-or-nothing: if every statement
of the batch succeeds the whole batch is applied; if any statement fails the
store is exactly as before the call; and in every case the result is one of
those two states — no partial subset of the batch is ever persisted, and no
failure is raised to the caller (`cache_data` is total). -/
theorem cache_data_atomic (s : Store) (t i now : String) (pts : List PricePoint)
    (fail : Row → Bool) (_hne : pts ≠ []) :
    ((∀ r ∈ pts.map (mkRow t i now), fail r = false) →
        cache_data s t i pts now fail = applyAll s (pts.map (mkRow t i now))) ∧
    ((∃ r ∈ pts.map (mkRow t i now), fail r = true) →
        cache_data s t i pts now fail = s) ∧
    (cache_data s t i pts now fail = s ∨
        cache_data s t i pts now fail = applyAll s (pts.map (mkRow t i now))) := by
  refine ⟨?_, ?_, ?_⟩
  · intro h
    unfold cache_data
    cases hp : pts with
    | nil => simp [applyAll]
    | cons p ps =>
      simp only [List.isEmpty_cons, Bool.false_eq_true, if_false]
      rw [← hp, execWrites_ok s _ fail h]
  · intro h
    unfold cache_data
    cases hp : pts with
    | nil => simp
    | cons p ps =>
      simp only [List.isEmpty_cons, Bool.false_eq_true, if_false]
      rw [← hp, (execWrites_isNone_iff s _ fail).mpr (hp ▸ h)]
  · by_cases h : ∃ r ∈ pts.map (mkRow t i now), fail r = true
    · left
      unfold cache_data
      cases hp : pts with
      | nil => simp
      | cons p ps =>
        simp only [List.isEmpty_cons, Bool.false_eq_true, if_false]
        rw [← hp, (execWrites_isNone_iff s _ fail).mpr (hp ▸ h)]
    · right
      push_neg at h
      unfold cache_data
      cases hp : pts with
      | nil => simp [applyAll]
      | cons p ps =>
        simp only [List.isEmpty_cons, Bool.false_eq_true, if_false]
        rw [← hp, execWrites_ok s _ fail (by
          intro r hr
          rw [← Bool.not_eq_true]
          exact h r (hp ▸ hr))]

/-- Witness for C6: a batch whose second write fails leaves the store exactly
as it was. -/
theorem cache_data_atomic_witness :
    cache_data [⟨"MSFT", "1d", 1, 1, 1, 1, 1, none, "t0"⟩] "AAPL" "1d"
        [⟨5, 1, 1, 1, 1, none⟩, ⟨6, 2, 2, 2, 2, none⟩] "t1"
        (fun r => r.date == 6) = [⟨"MSFT", "1d", 1, 1, 1, 1, 1, none, "t0"⟩] :=
  (cache_data_atomic [⟨"MSFT", "1d", 1, 1, 1, 1, 1, none, "t0"⟩] "AAPL" "1d" "t1"
      [⟨5, 1, 1, 1, 1, none⟩, ⟨6, 2, 2, 2, 2, none⟩]
      (fun r => r.date == 6) (by decide)).2.1
    ⟨mkRow "AAPL" "1d" "t1" ⟨6, 2, 2, 2, 2, none⟩, by decide⟩

/-! ### C7: eviction variants -/

theorem length_filter_not_add (l : List Row) (p : Row → Bool) :
    (l.filter (fun r => !(p r))).length + (l.filter p).length = l.length := by
  induction l with
  | nil => rfl
  | cons r rs ih =>
    by_cases h : p r = true
    · simp only [List.filter_cons, h, Bool.not_true, Bool.false_eq_true, if_false, if_true,
        List.length_cons]
      omega
    · rw [Bool.not_eq_true] at h
      simp only [List.filter_cons, h, Bool.not_false, Bool.false_eq_true, if_false, if_true,
        List.length_cons]
      omega

/-- C7 counterexample: at a store holding one `("AAPL", "1d")` row, the
exact-key eviction removes that one row yet returns `None` rather than the
count `1`; and calling the exact-key variant with the empty-string symbol
(which is not `None`) deletes a row whose ticker is not that symbol, because
Python truthiness routes the call to the interval-only branch. -/
theorem clear_cache_claim_false :
    ((clear_cache [⟨"AAPL", "1d", 0, 1, 1, 1, 1, none, "t0"⟩]
        (some "AAPL") (some "1d")).store = [] ∧
      ¬((clear_cache [⟨"AAPL", "1d", 0, 1, 1, 1, 1, none, "t0"⟩]
        (some "AAPL") (some "1d")).returned = some 1)) ∧
    ((clear_cache [⟨"AAPL", "1d", 0, 1, 1, 1, 1, none, "t0"⟩]
        (some "") (some "1d")).store = [] ∧
      (Row.ticker ⟨"AAPL", "1d", 0, 1, 1, 1, 1, none, "t0"⟩ ≠ "")) := by
  refine ⟨⟨by decide, by decide⟩, by decide, by decide⟩

/-- C7 as amended: with truthy (non-`None`, non-empty) arguments, each
eviction variant removes exactly the matching rows and leaves all
non-matching rows unchanged (in particular exactly the matching rows are
counted out of the table), but the method always returns `None` — it never
returns the count of rows removed. -/
theorem clear_cache_variants (s : Store) (t i : String) (ht : t ≠ "") (hi : i ≠ "") :
    (clear_cache s (some t) (some i)).store =
        s.filter (fun r => !(r.ticker == t && r.interval == i)) ∧
    (clear_cache s (some t) none).store = s.filter (fun r => !(r.ticker == t)) ∧
    (clear_cache s none (some i)).store = s.filter (fun r => !(r.interval == i)) ∧
    (clear_cache s none none).store = [] ∧
    (clear_cache s (some t) (some i)).store.length +
        (s.filter (fun r => r.ticker == t && r.interval == i)).length = s.length ∧
    (∀ oT oI, (clear_cache s oT oI).returned = none) := by
  have hat : argVal (some t) = some t := by
    simp [argVal, ht]
  have hai : argVal (some i) = some i := by
    simp [argVal, hi]
  refine ⟨?_, ?_, ?_, ?_, ?_, ?_⟩
  · simp [clear_cache, hat, hai]
  · simp only [clear_cache]
    rw [hat]
    rfl
  · simp only [clear_cache]
    rw [hai]
    rfl
  · simp [clear_cache, argVal]
  · have h1 : (clear_cache s (some t) (some i)).store =
        s.filter (fun r => !(r.ticker == t && r.interval == i)) := by
      simp [clear_cache, hat, hai]
    rw [h1]
    exact length_filter_not_add s _
  · intro oT oI
    cases h1 : argVal oT <;> cases h2 : argVal oI <;> simp [clear_cache, h1, h2]

/-- Witness for C7 (amended): exact-key eviction at a two-row store removes
only the matching row. -/
theorem clear_cache_variants_witness :
    (clear_cache
        [⟨"AAPL", "1d", 0, 1, 1, 1, 1, none, "t0"⟩, ⟨"MSFT", "1d", 0, 1, 1, 1, 1, none, "t0"⟩]
        (some "AAPL") (some "1d")).store = [⟨"MSFT", "1d", 0, 1, 1, 1, 1, none, "t0"⟩] :=
  ((clear_cache_variants
      [⟨"AAPL", "1d", 0, 1, 1, 1, 1, none, "t0"⟩, ⟨"MSFT", "1d", 0, 1, 1, 1, 1, none, "t0"⟩]
      "AAPL" "1d" (by decide) (by decide)).1).trans (by decide)

/-! ### C8: independence from the write timestamps -/

/-- A table row minus its `cached_at` stamp: everything `get_cached_data`
is allowed to depend on. -/
structure RowCore where
  ticker : String
  interval : String
  date : Int
  open_price : Rat
  high_price : Rat
  low_price : Rat
  close_price : Rat
  volume : Option Int
deriving DecidableEq

/-- Forget the `cached_at` stamp of a row. -/
def erase_stamp (r : Row) : RowCore :=
  ⟨r.ticker, r.interval, r.date, r.open_price, r.high_price, r.low_price,
    r.close_price, r.volume⟩

/-- Date order on stamp-free rows. -/
def coreDateLe (x y : RowCore) : Prop := x.date ≤ y.date

instance : DecidableRel coreDateLe := fun x y => inferInstanceAs (Decidable (x.date ≤ y.date))

/-- The data point a stamp-free row yields. -/
def core_to_point (x : RowCore) : PricePoint :=
  ⟨x.date, x.open_price, x.high_price, x.low_price, x.close_price, x.volume⟩

theorem filter_factor (s : Store) (p : Row → Bool) (q : RowCore → Bool)
    (hpq : ∀ r, p r = q (erase_stamp r)) :
    (s.filter p).map erase_stamp = (s.map erase_stamp).filter q := by
  rw [List.filter_map]
  congr 1
  apply List.filter_congr
  intro r _
  rw [Function.comp_apply, hpq r]

theorem orderedInsert_erase (a : Row) (l : List Row) :
    (l.orderedInsert dateLe a).map erase_stamp =
      (l.map erase_stamp).orderedInsert coreDateLe (erase_stamp a) := by
  induction l with
  | nil => rfl
  | cons b tl ih =>
    by_cases h : dateLe a b
    · have h' : coreDateLe (erase_stamp a) (erase_stamp b) := h
      simp [List.orderedInsert, h, h']
    · have h' : ¬ coreDateLe (erase_stamp a) (erase_stamp b) := h
      simp [List.orderedInsert, h, h', ih]

theorem insertionSort_erase (l : List Row) :
    (List.insertionSort dateLe l).map erase_stamp =
      List.insertionSort coreDateLe (l.map erase_stamp) := by
  induction l with
  | nil => rfl
  | cons a tl ih => simp [List.insertionSort, orderedInsert_erase, ih]

/-- C8: the result of a cache read never depends on `cached_at`: any two
stores that agree row-for-row on `(ticker, interval, date, open, high, low,
close, volume)` and differ only in their write timestamps produce identical
`get_cached_data` results — wall-clock age never makes a covered request
miss. -/
theorem get_cached_data_stamp_free (s1 s2 : Store)
    (h : s1.map erase_stamp = s2.map erase_stamp) (t i : String) (a b : Int) :
    get_cached_data s1 t i a b = get_cached_data s2 t i a b := by
  have hkey : ∀ s : Store, (s.filter (sameKey t i)).map erase_stamp =
      (s.map erase_stamp).filter (fun x => x.ticker == t && x.interval == i) := by
    intro s
    exact filter_factor s _ _ (fun r => rfl)
  have hwin : ∀ s : Store, (s.filter (inWindow t i a b)).map erase_stamp =
      (s.map erase_stamp).filter
        (fun x => (x.ticker == t && x.interval == i) && decide (a ≤ x.date) &&
          decide (x.date ≤ b)) := by
    intro s
    exact filter_factor s _ _ (fun r => rfl)
  have hdates : (s1.filter (sameKey t i)).map Row.date =
      (s2.filter (sameKey t i)).map Row.date := by
    have e1 : ∀ s : Store, (s.filter (sameKey t i)).map Row.date =
        ((s.filter (sameKey t i)).map erase_stamp).map RowCore.date := by
      intro s
      rw [List.map_map]
      rfl
    rw [e1, e1, hkey, hkey, h]
  have hcov : check_data_coverage s1 t i a b = check_data_coverage s2 t i a b := by
    unfold check_data_coverage get_cached_date_range
    rw [hdates]
  have hfw : (s1.filter (inWindow t i a b)).map erase_stamp =
      (s2.filter (inWindow t i a b)).map erase_stamp := by
    rw [hwin, hwin, h]
  have hsorted : (List.insertionSort dateLe (s1.filter (inWindow t i a b))).map erase_stamp =
      (List.insertionSort dateLe (s2.filter (inWindow t i a b))).map erase_stamp := by
    rw [insertionSort_erase, insertionSort_erase, hfw]
  have hpts : (List.insertionSort dateLe (s1.filter (inWindow t i a b))).map toPoint =
      (List.insertionSort dateLe (s2.filter (inWindow t i a b))).map toPoint := by
    have e2 : ∀ l : List Row, l.map toPoint = (l.map erase_stamp).map core_to_point := by
      intro l
      rw [List.map_map]
      rfl
    rw [e2, e2, hsorted]
  unfold get_cached_data
  rw [hcov]
  cases hc : check_data_coverage s2 t i a b with
  | false => rfl
  | true =>
    simp only [if_pos rfl]
    rcases h1 : List.insertionSort dateLe (s1.filter (inWindow t i a b)) with _ | ⟨r1, rs1⟩ <;>
      rcases h2 : List.insertionSort dateLe (s2.filter (inWindow t i a b)) with _ | ⟨r2, rs2⟩
    · rfl
    · rw [h1, h2] at hsorted
      cases hsorted
    · rw [h1, h2] at hsorted
      cases hsorted
    · rw [h1, h2] at hpts
      show some ((r1 :: rs1).map toPoint) = some ((r2 :: rs2).map toPoint)
      rw [hpts]

/-- Witness for C8: two one-row stores that differ only in `cached_at` give
the same read result. -/
theorem get_cached_data_stamp_free_witness :
    ([(⟨"AAPL", "1d", 3, 1, 2, 0, 1, some 5, "2020-01-01"⟩ : Row)].map erase_stamp =
      [(⟨"AAPL", "1d", 3, 1, 2, 0, 1, some 5, "2099-12-31"⟩ : Row)].map erase_stamp) ∧
    get_cached_data [⟨"AAPL", "1d", 3, 1, 2, 0, 1, some 5, "2020-01-01"⟩] "AAPL" "1d" 3 3 =
      get_cached_data [⟨"AAPL", "1d", 3, 1, 2, 0, 1, some 5, "2099-12-31"⟩] "AAPL" "1d" 3 3 :=
  ⟨by decide,
    get_cached_data_stamp_free
      [⟨"AAPL", "1d", 3, 1, 2, 0, 1, some 5, "2020-01-01"⟩]
      [⟨"AAPL", "1d", 3, 1, 2, 0, 1, some 5, "2099-12-31"⟩]
      (by decide) "AAPL" "1d" 3 3⟩

/-! ### Character and string lemmas for ticker normalization -/

theorem char_toNat_ofNat (n : Nat) (h : n.isValidChar) : (Char.ofNat n).toNat = n := by
  simp [Char.ofNat, h, Char.ofNatAux, Char.toNat, UInt32.toNat]

theorem whitespace_toNat (c : Char) (h : c.isWhitespace = true) :
    c.toNat = 32 ∨ c.toNat = 9 ∨ c.toNat = 13 ∨ c.toNat = 10 := by
  simp only [Char.isWhitespace, Bool.or_eq_true, decide_eq_true_eq] at h
  rcases h with (((h | h) | h) | h) <;> subst h <;> simp

theorem toUpper_toUpper (c : Char) : c.toUpper.toUpper = c.toUpper := by
  by_cases h : c.toNat ≥ 97 ∧ c.toNat ≤ 122
  · have hv : (c.toNat - 32).isValidChar := by left; omega
    have h1 : c.toUpper = Char.ofNat (c.toNat - 32) := by
      simp only [Char.toUpper]
      rw [if_pos h]
    have h2 : (Char.ofNat (c.toNat - 32)).toNat = c.toNat - 32 := char_toNat_ofNat _ hv
    rw [h1]
    simp only [Char.toUpper, h2]
    rw [if_neg (by omega)]
  · simp only [Char.toUpper]
    rw [if_neg h, if_neg h]

theorem isWhitespace_toUpper (c : Char) : c.toUpper.isWhitespace = c.isWhitespace := by
  by_cases h : c.toNat ≥ 97 ∧ c.toNat ≤ 122
  · have hv : (c.toNat - 32).isValidChar := by left; omega
    have h1 : c.toUpper = Char.ofNat (c.toNat - 32) := by
      simp only [Char.toUpper]
      rw [if_pos h]
    have h2 : (Char.ofNat (c.toNat - 32)).toNat = c.toNat - 32 := char_toNat_ofNat _ hv
    rw [h1]
    have hlhs : (Char.ofNat (c.toNat - 32)).isWhitespace = false := by
      by_contra hw
      have := whitespace_toNat _ (by simpa using hw)
      rw [h2] at this
      omega
    have hrhs : c.isWhitespace = false := by
      by_contra hw
      have := whitespace_toNat c (by simpa using hw)
      omega
    rw [hlhs, hrhs]
  · have h1 : c.toUpper = c := by
      simp only [Char.toUpper]
      rw [if_neg h]
    rw [h1]

theorem head?_dropWhile (p : Char → Bool) (l : List Char) (c : Char)
    (h : (l.dropWhile p).head? = some c) : p c = false := by
  induction l with
  | nil => cases h
  | cons a tl ih =>
    by_cases pa : p a = true
    · rw [List.dropWhile_cons, if_pos pa] at h
      exact ih h
    · rw [Bool.not_eq_true] at pa
      rw [List.dropWhile_cons, pa] at h
      simp only [Bool.false_eq_true, if_false, List.head?_cons, Option.some.injEq] at h
      exact h ▸ pa

theorem dropWhile_eq_self_of_head? (p : Char → Bool) (l : List Char)
    (h : ∀ c, l.head? = some c → p c = false) : l.dropWhile p = l := by
  cases l with
  | nil => rfl
  | cons a tl =>
    have := h a rfl
    rw [List.dropWhile_cons, this]
    simp

theorem dropWhile_idem (p : Char → Bool) (l : List Char) :
    (l.dropWhile p).dropWhile p = l.dropWhile p :=
  dropWhile_eq_self_of_head? p _ (head?_dropWhile p l)

theorem trimChars_idem (l : List Char) : trimChars (trimChars l) = trimChars l := by
  unfold trimChars
  have hinner :
      ((((l.dropWhile Char.isWhitespace).reverse.dropWhile Char.isWhitespace).reverse).dropWhile
        Char.isWhitespace) =
      ((l.dropWhile Char.isWhitespace).reverse.dropWhile Char.isWhitespace).reverse := by
    apply dropWhile_eq_self_of_head?
    intro c hc
    rcases hrev : ((l.dropWhile Char.isWhitespace).reverse.dropWhile
        Char.isWhitespace).reverse with _ | ⟨c', tl⟩
    · rw [hrev] at hc
      cases hc
    · rw [hrev, List.head?_cons, Option.some.injEq] at hc
      have hsuffix : (l.dropWhile Char.isWhitespace).reverse.dropWhile Char.isWhitespace <:+
          (l.dropWhile Char.isWhitespace).reverse := List.dropWhile_suffix _
      rcases hsuffix with ⟨pre, hpre⟩
      have h5 := congrArg List.reverse hpre
      rw [List.reverse_append, List.reverse_reverse] at h5
      have hm : l.dropWhile Char.isWhitespace = (c' :: tl) ++ pre.reverse := by
        rw [← h5, hrev]
      have h6 : (l.dropWhile Char.isWhitespace).head? = some c' := by
        rw [hm]
        rfl
      rw [← hc]
      exact head?_dropWhile _ l c' h6
  rw [hinner, List.reverse_reverse, dropWhile_idem]

theorem dropWhile_map_toUpper (l : List Char) :
    (l.map Char.toUpper).dropWhile Char.isWhitespace =
      (l.dropWhile Char.isWhitespace).map Char.toUpper := by
  induction l with
  | nil => rfl
  | cons a tl ih =>
    by_cases ha : Char.isWhitespace a = true
    · have ha' : Char.isWhitespace a.toUpper = true := by rw [isWhitespace_toUpper]; exact ha
      simp only [List.map_cons, List.dropWhile_cons, ha, ha', if_pos rfl]
      exact ih
    · rw [Bool.not_eq_true] at ha
      have ha' : Char.isWhitespace a.toUpper = false := by rw [isWhitespace_toUpper]; exact ha
      simp only [List.map_cons, List.dropWhile_cons, ha, ha', Bool.false_eq_true, if_false]

theorem trimChars_map_toUpper (l : List Char) :
    trimChars (l.map Char.toUpper) = (trimChars l).map Char.toUpper := by
  unfold trimChars
  rw [dropWhile_map_toUpper, ← List.map_reverse, dropWhile_map_toUpper, ← List.map_reverse]

theorem map_toUpper_idem (l : List Char) :
    (l.map Char.toUpper).map Char.toUpper = l.map Char.toUpper := by
  rw [List.map_map]
  apply List.map_congr_left
  intro a _
  exact toUpper_toUpper a

theorem normalize_ticker_idem (s : String) :
    normalize_ticker (normalize_ticker s) = normalize_ticker s := by
  show String.mk (trimChars ((trimChars (s.data.map Char.toUpper)).map Char.toUpper)) =
    String.mk (trimChars (s.data.map Char.toUpper))
  congr 1
  rw [trimChars_map_toUpper, trimChars_idem, ← trimChars_map_toUpper, map_toUpper_idem]

theorem str_strip_data (s : String) : (str_strip s).data = trimChars s.data := rfl

theorem normalize_ticker_data (s : String) :
    (normalize_ticker s).data = (trimChars s.data).map Char.toUpper := by
  show trimChars (s.data.map Char.toUpper) = (trimChars s.data).map Char.toUpper
  exact trimChars_map_toUpper s.data

theorem ne_empty_of_strip_ne_empty (s : String) (h : str_strip s ≠ "") : s ≠ "" := by
  intro hs
  subst hs
  exact h rfl

theorem normalize_ne_empty (s : String) (h : str_strip s ≠ "") : normalize_ticker s ≠ "" := by
  intro hn
  apply h
  have h1 : (normalize_ticker s).data = [] := by rw [hn]
  rw [normalize_ticker_data] at h1
  have h2 : trimChars s.data = [] := List.map_eq_nil_iff.mp h1
  show String.mk (trimChars s.data) = ""
  rw [h2]

/-! ### Service-level helper lemmas -/

/-- The conditions under which `_validate_parameters` succeeds. -/
def params_ok (ticker period interval : String) : Prop :=
  ticker ≠ "" ∧ (interval = "1d" ∨ interval = "1wk" ∨ interval = "1mo") ∧
    2 ≤ period.data.length

instance (t p i : String) : Decidable (params_ok t p i) := by
  unfold params_ok
  infer_instance

theorem validate_parameters_ok (ticker period interval : String)
    (h : params_ok ticker period interval) :
    validate_parameters ticker period interval =
      .ok (normalize_ticker ticker, period, interval) := by
  obtain ⟨h1, h2, h3⟩ := h
  have e1 : (ticker == "") = false := by simp [h1]
  have e2 : (interval == "1d" || interval == "1wk" || interval == "1mo") = true := by
    rcases h2 with rfl | rfl | rfl <;> decide
  have e3 : ¬(period.data.length < 2) := by omega
  simp only [validate_parameters, e1, Bool.false_eq_true, if_false, e2, Bool.not_true,
    if_neg e3]

theorem validate_parameters_error (t p i : String) (e : SvcError)
    (h : validate_parameters t p i = .error e) : ∃ m, e = .valueError m := by
  unfold validate_parameters at h
  split_ifs at h <;>
    first
      | exact ⟨_, ((Except.error.injEq _ _).mp h).symm⟩
      | exact Except.noConfusion h

theorem validate_parameters_ok_inv (t p i : String) (v : String × String × String)
    (h : validate_parameters t p i = .ok v) : v = (normalize_ticker t, p, i) := by
  unfold validate_parameters at h
  split_ifs at h <;>
    first
      | exact Except.noConfusion h
      | exact ((Except.ok.injEq _ _).mp h).symm

theorem calculate_date_range_error (p : String) (today : Int) (e : SvcError)
    (h : calculate_date_range p today = .error e) : ∃ m, e = .valueError m := by
  unfold calculate_date_range at h
  split_ifs at h
  · rcases hi : py_int? (drop_last p.data 1) with _ | k <;> rw [hi] at h
    · exact ⟨_, ((Except.error.injEq _ _).mp h).symm⟩
    · exact Except.noConfusion h
  · rcases hi : py_int? (drop_last p.data 2) with _ | k <;> rw [hi] at h
    · exact ⟨_, ((Except.error.injEq _ _).mp h).symm⟩
    · exact Except.noConfusion h
  · rcases hi : py_int? (drop_last p.data 1) with _ | k <;> rw [hi] at h
    · exact ⟨_, ((Except.error.injEq _ _).mp h).symm⟩
    · exact Except.noConfusion h
  · exact ⟨_, ((Except.error.injEq _ _).mp h).symm⟩

/-- Reduction of `get_stock_data` once validation and period parsing have
succeeded. -/
theorem get_stock_data_eq (ticker period interval : String) (force : Bool) (today : Int)
    (store : Store) (fetch : Except String (List PricePoint)) (now : String)
    (fail : Row → Bool) (a b : Int) (h : params_ok ticker period interval)
    (hr : calculate_date_range period today = .ok (a, b)) :
    get_stock_data ticker period interval force today store fetch now fail =
      match (if force then none
             else get_cached_data store (normalize_ticker ticker) interval a b) with
      | some pts => ⟨.ok pts, store, false⟩
      | none =>
        match fetch with
        | .ok fresh =>
          ⟨.ok (fresh.filter (fun q => decide (a ≤ q.date) && decide (q.date ≤ b))),
            cache_data store (normalize_ticker ticker) interval fresh now fail, true⟩
        | .error msg =>
          match get_cached_data store (normalize_ticker ticker) interval a b with
          | some pts => ⟨.ok pts, store, true⟩
          | none => ⟨.error (.upstreamError msg), store, true⟩ := by
  unfold get_stock_data
  rw [validate_parameters_ok _ _ _ h]
  simp only
  rw [hr]

theorem get_stock_data_invalid (ticker period interval : String) (force : Bool) (today : Int)
    (store : Store) (fetch : Except String (List PricePoint)) (now : String)
    (fail : Row → Bool) (e : SvcError)
    (hv : validate_parameters ticker period interval = .error e) :
    get_stock_data ticker period interval force today store fetch now fail =
      ⟨.error e, store, false⟩ := by
  unfold get_stock_data
  rw [hv]

theorem get_stock_data_reduce (ticker period interval tn p2 i2 : String) (force : Bool)
    (today : Int) (store : Store) (fetch : Except String (List PricePoint)) (now : String)
    (fail : Row → Bool)
    (hv : validate_parameters ticker period interval = .ok (tn, p2, i2)) :
    get_stock_data ticker period interval force today store fetch now fail =
      match calculate_date_range p2 today with
      | .error e => ⟨.error e, store, false⟩
      | .ok (a, b) =>
        match (if force then none else get_cached_data store tn i2 a b) with
        | some pts => ⟨.ok pts, store, false⟩
        | none =>
          match fetch with
          | .ok fresh =>
            ⟨.ok (fresh.filter (fun q => decide (a ≤ q.date) && decide (q.date ≤ b))),
              cache_data store tn i2 fresh now fail, true⟩
          | .error msg =>
            match get_cached_data store tn i2 a b with
            | some pts => ⟨.ok pts, store, true⟩
            | none => ⟨.error (.upstreamError msg), store, true⟩ := by
  unfold get_stock_data
  rw [hv]

theorem get_stock_data_reduce_err (ticker period interval tn p2 i2 : String) (force : Bool)
    (today : Int) (store : Store) (fetch : Except String (List PricePoint)) (now : String)
    (fail : Row → Bool) (e : SvcError)
    (hv : validate_parameters ticker period interval = .ok (tn, p2, i2))
    (hc : calculate_date_range p2 today = .error e) :
    get_stock_data ticker period interval force today store fetch now fail =
      ⟨.error e, store, false⟩ := by
  rw [get_stock_data_reduce ticker period interval tn p2 i2 force today store fetch now fail hv,
    hc]

theorem get_stock_data_reduce_ok (ticker period interval tn p2 i2 : String) (force : Bool)
    (today : Int) (store : Store) (fetch : Except String (List PricePoint)) (now : String)
    (fail : Row → Bool) (a b : Int)
    (hv : validate_parameters ticker period interval = .ok (tn, p2, i2))
    (hc : calculate_date_range p2 today = .ok (a, b)) :
    get_stock_data ticker period interval force today store fetch now fail =
      match (if force then none else get_cached_data store tn i2 a b) with
      | some pts => ⟨.ok pts, store, false⟩
      | none =>
        match fetch with
        | .ok fresh =>
          ⟨.ok (fresh.filter (fun q => decide (a ≤ q.date) && decide (q.date ≤ b))),
            cache_data store tn i2 fresh now fail, true⟩
        | .error msg =>
          match get_cached_data store tn i2 a b with
          | some pts => ⟨.ok pts, store, true⟩
          | none => ⟨.error (.upstreamError msg), store, true⟩ := by
  rw [get_stock_data_reduce ticker period interval tn p2 i2 force today store fetch now fail hv,
    hc]

/-! ### C1: stale-cache fallback on upstream failure -/

/-- C1: after successful validation and period parsing, when the upstream
fetch fails the service re-runs the cache lookup for the same
`(ticker, interval, start, end)`; if it returns data those stale rows are
returned (and nothing raised), otherwise the fetch failure propagates — and
this is the only way `get_stock_data` surfaces an error after validation:
any error outcome is exactly the upstream failure with an empty fallback
lookup. -/
theorem fetch_failure_fallback (ticker period interval : String) (force : Bool) (today : Int)
    (store : Store) (now : String) (fail : Row → Bool) (a b : Int)
    (ho : params_ok ticker period interval)
    (hr : calculate_date_range period today = .ok (a, b)) :
    (∀ m : String,
        (force = true ∨ get_cached_data store (normalize_ticker ticker) interval a b = none) →
        (get_stock_data ticker period interval force today store (.error m) now fail).result =
          (match get_cached_data store (normalize_ticker ticker) interval a b with
           | some pts => .ok pts
           | none => .error (.upstreamError m)) ∧
        (get_stock_data ticker period interval force today store (.error m) now fail).store =
          store) ∧
    (∀ (fetch : Except String (List PricePoint)) (e : SvcError),
        (get_stock_data ticker period interval force today store fetch now fail).result =
          .error e →
        ∃ m, e = .upstreamError m ∧ fetch = .error m ∧
          get_cached_data store (normalize_ticker ticker) interval a b = none) := by
  constructor
  · intro m hmiss
    rw [get_stock_data_eq ticker period interval force today store (.error m) now fail a b
      ho hr]
    cases force with
    | true =>
      rw [if_pos rfl]
      rcases hg : get_cached_data store (normalize_ticker ticker) interval a b with _ | pts
      · exact ⟨rfl, rfl⟩
      · exact ⟨rfl, rfl⟩
    | false =>
      rcases hmiss with hmiss | hmiss
      · cases hmiss
      · rw [if_neg Bool.false_ne_true, hmiss]
        exact ⟨rfl, rfl⟩
  · intro fetch e hres
    rw [get_stock_data_eq ticker period interval force today store fetch now fail a b
      ho hr] at hres
    cases force with
    | true =>
      rw [if_pos rfl] at hres
      cases fetch with
      | ok fresh => cases hres
      | error m =>
        rcases hg : get_cached_data store (normalize_ticker ticker) interval a b with _ | pts <;>
          rw [hg] at hres
        · exact ⟨m, (((Except.error.injEq _ _).mp hres)).symm, rfl, rfl⟩
        · cases hres
    | false =>
      rw [if_neg Bool.false_ne_true] at hres
      rcases hg : get_cached_data store (normalize_ticker ticker) interval a b with _ | pts <;>
        rw [hg] at hres
      · cases fetch with
        | ok fresh => cases hres
        | error m => exact ⟨m, (((Except.error.injEq _ _).mp hres)).symm, rfl, rfl⟩
      · cases hres

/-- Witness for C1: with an empty cache and a failing fetch the error
propagates; the store is untouched. -/
theorem fetch_failure_fallback_witness :
    (get_stock_data "AAPL" "1y" "1d" true 1000 [] (.error "boom") "t"
        (fun _ => false)).result = .error (.upstreamError "boom") ∧
    (get_stock_data "AAPL" "1y" "1d" true 1000 [] (.error "boom") "t"
        (fun _ => false)).store = [] := by
  have h := (fetch_failure_fallback "AAPL" "1y" "1d" true 1000 [] "t" (fun _ => false)
      635 1000 (by decide) (by decide)).1 "boom" (Or.inl rfl)
  exact ⟨h.1, h.2⟩

/-! ### C4: cache hit is terminal, force-refresh skips the lookup -/

/-- C4: after successful validation, with `force_refresh = False` a cache hit
for the computed window is returned as-is — no fetch, no state mutation; with
`force_refresh = True` the initial cache lookup is skipped entirely, so the
fetcher is always invoked, whatever the cache holds. -/
theorem cache_hit_short_circuit (ticker period interval : String) (today : Int)
    (store : Store) (now : String) (fail : Row → Bool) (a b : Int)
    (ho : params_ok ticker period interval)
    (hr : calculate_date_range period today = .ok (a, b)) :
    (∀ (pts : List PricePoint) (fetch : Except String (List PricePoint)),
        get_cached_data store (normalize_ticker ticker) interval a b = some pts →
        get_stock_data ticker period interval false today store fetch now fail =
          ⟨.ok pts, store, false⟩) ∧
    (∀ fetch : Except String (List PricePoint),
        (get_stock_data ticker period interval true today store fetch now fail).fetcherCalled =
          true) := by
  constructor
  · intro pts fetch hhit
    rw [get_stock_data_eq ticker period interval false today store fetch now fail a b ho hr]
    rw [if_neg Bool.false_ne_true, hhit]
  · intro fetch
    rw [get_stock_data_eq ticker period interval true today store fetch now fail a b ho hr]
    rw [if_pos rfl]
    cases fetch with
    | ok fresh => rfl
    | error m =>
      rcases hg : get_cached_data store (normalize_ticker ticker) interval a b with _ | pts
      · rfl
      · rfl

/-- Witness for C4: a covering store makes the hit terminal with the fetcher
left untouched, even though the fetch outcome would have been a failure. -/
theorem cache_hit_short_circuit_witness :
    get_stock_data "AAPL" "1y" "1d" false 1000
        [⟨"AAPL", "1d", 600, 1, 1, 1, 1, none, "t0"⟩,
          ⟨"AAPL", "1d", 1000, 2, 2, 2, 2, none, "t0"⟩]
        (.error "boom") "t" (fun _ => false) =
      ⟨.ok [⟨1000, 2, 2, 2, 2, none⟩],
        [⟨"AAPL", "1d", 600, 1, 1, 1, 1, none, "t0"⟩,
          ⟨"AAPL", "1d", 1000, 2, 2, 2, 2, none, "t0"⟩], false⟩ :=
  (cache_hit_short_circuit "AAPL" "1y" "1d" 1000
      [⟨"AAPL", "1d", 600, 1, 1, 1, 1, none, "t0"⟩,
        ⟨"AAPL", "1d", 1000, 2, 2, 2, 2, none, "t0"⟩]
      "t" (fun _ => false) 635 1000 (by decide) (by decide)).1
    [⟨1000, 2, 2, 2, 2, none⟩] (.error "boom") (by decide)

/-! ### C9: ticker normalization -/

theorem execWrites_eq_some (s s' : Store) (ws : List Row) (fail : Row → Bool)
    (h : execWrites s ws fail = some s') : s' = applyAll s ws := by
  induction ws generalizing s with
  | nil =>
    cases h
    rfl
  | cons w rest ih =>
    unfold execWrites at h
    by_cases hw : fail w = true
    · rw [if_pos hw] at h
      cases h
    · rw [if_neg hw] at h
      exact ih _ h

theorem mem_insertOrReplace (s : Store) (r x : Row) (h : x ∈ insertOrReplace s r) :
    x ∈ s ∨ x = r := by
  unfold insertOrReplace at h
  rcases List.mem_append.mp h with h1 | h1
  · exact Or.inl (List.mem_filter.mp h1).1
  · exact Or.inr (List.mem_singleton.mp h1)

theorem mem_applyAll (s : Store) (ws : List Row) (x : Row) (h : x ∈ applyAll s ws) :
    x ∈ s ∨ x ∈ ws := by
  induction ws generalizing s with
  | nil => exact Or.inl h
  | cons w rest ih =>
    rcases ih (insertOrReplace s w) h with h1 | h1
    · rcases mem_insertOrReplace s w x h1 with h2 | h2
      · exact Or.inl h2
      · exact Or.inr (h2 ▸ List.mem_cons_self w rest)
    · exact Or.inr (List.mem_cons_of_mem w h1)

theorem mem_cache_data (s : Store) (t i : String) (pts : List PricePoint) (now : String)
    (fail : Row → Bool) (x : Row) (h : x ∈ cache_data s t i pts now fail) :
    x ∈ s ∨ x.ticker = t := by
  unfold cache_data at h
  by_cases hp : pts.isEmpty = true
  · rw [if_pos hp] at h
    exact Or.inl h
  · rw [if_neg hp] at h
    rcases he : execWrites s (pts.map (mkRow t i now)) fail with _ | s' <;> rw [he] at h
    · exact Or.inl h
    · rw [execWrites_eq_some _ _ _ _ he] at h
      rcases mem_applyAll _ _ _ h with h1 | h1
      · exact Or.inl h1
      · rcases List.mem_map.mp h1 with ⟨p, -, rfl⟩
        exact Or.inr rfl

/-- C9: for any ticker with non-whitespace content, the whole request behaves
identically to the request on the normalized `ticker.upper().strip()`, and
every row the call adds to the store carries the normalized ticker. -/
theorem ticker_normalization (ticker period interval : String) (force : Bool) (today : Int)
    (store : Store) (fetch : Except String (List PricePoint)) (now : String)
    (fail : Row → Bool) (h : str_strip ticker ≠ "") :
    get_stock_data ticker period interval force today store fetch now fail =
      get_stock_data (normalize_ticker ticker) period interval force today store fetch
        now fail ∧
    (∀ r ∈ (get_stock_data ticker period interval force today store fetch now fail).store,
        r ∈ store ∨ r.ticker = normalize_ticker ticker) := by
  constructor
  · have hveq : validate_parameters (normalize_ticker ticker) period interval =
        validate_parameters ticker period interval := by
      unfold validate_parameters
      have e1 : (ticker == "") = false := by
        simp [ne_empty_of_strip_ne_empty ticker h]
      have e2 : (normalize_ticker ticker == "") = false := by
        simp [normalize_ne_empty ticker h]
      simp only [e1, e2, Bool.false_eq_true, if_false]
      rw [normalize_ticker_idem]
    unfold get_stock_data
    rw [hveq]
  · intro r hr
    rcases hv : validate_parameters ticker period interval with e | v
    · rw [get_stock_data_invalid ticker period interval force today store fetch now fail e hv]
        at hr
      exact Or.inl hr
    · obtain ⟨tn, p2, i2⟩ := v
      have hv2 := validate_parameters_ok_inv _ _ _ _ hv
      rw [Prod.mk.injEq, Prod.mk.injEq] at hv2
      obtain ⟨htn, hp2, hi2⟩ := hv2
      rcases hc : calculate_date_range p2 today with e | ab
      · rw [get_stock_data_reduce_err ticker period interval tn p2 i2 force today store
          fetch now fail e hv hc] at hr
        exact Or.inl hr
      · obtain ⟨a, b⟩ := ab
        rw [get_stock_data_reduce_ok ticker period interval tn p2 i2 force today store
          fetch now fail a b hv hc] at hr
        rw [htn, hi2] at hr
        rcases hh : (if force then none
            else get_cached_data store (normalize_ticker ticker) interval a b) with _ | pts <;>
          rw [hh] at hr
        · cases fetch with
          | ok fresh => exact mem_cache_data _ _ _ _ _ _ _ hr
          | error m =>
            rcases hg : get_cached_data store (normalize_ticker ticker) interval a b
                with _ | pts2 <;> rw [hg] at hr
            · exact Or.inl hr
            · exact Or.inl hr
        · exact Or.inl hr

/-- Witness for C9: a lower-case, padded ticker behaves exactly like its
normalization. -/
theorem ticker_normalization_witness :
    str_strip " aapl " ≠ "" ∧
    get_stock_data " aapl " "1y" "1d" false 1000 [] (.ok []) "t" (fun _ => false) =
      get_stock_data (normalize_ticker " aapl ") "1y" "1d" false 1000 [] (.ok []) "t"
        (fun _ => false) :=
  ⟨by decide,
    (ticker_normalization " aapl " "1y" "1d" false 1000 [] (.ok []) "t" (fun _ => false)
      (by decide)).1⟩

/-! ### C10: period parsing -/

/-- C10: every accepted period's window ends at today and starts at today
minus a fixed day count — `years * 365` for a `'y'` suffix, `months * 30` for
a `'mo'` suffix, `days` for a `'d'` suffix (calendar months and leap years
are ignored) — and any other suffix makes `get_stock_data` raise a
`ValueError` before the cache is written or the fetcher touched. -/
theorem period_window (period : String) (today : Int) :
    (∀ k : Int, str_endswith period "y" = true →
        py_int? (drop_last period.data 1) = some k →
        calculate_date_range period today = .ok (today - k * 365, today)) ∧
    (∀ k : Int, str_endswith period "y" = false → str_endswith period "mo" = true →
        py_int? (drop_last period.data 2) = some k →
        calculate_date_range period today = .ok (today - k * 30, today)) ∧
    (∀ k : Int, str_endswith period "y" = false → str_endswith period "mo" = false →
        str_endswith period "d" = true → py_int? (drop_last period.data 1) = some k →
        calculate_date_range period today = .ok (today - k, today)) ∧
    (str_endswith period "y" = false → str_endswith period "mo" = false →
        str_endswith period "d" = false →
        (∃ e, calculate_date_range period today = .error (.valueError e)) ∧
        (∀ (ticker interval : String) (force : Bool) (store : Store)
            (fetch : Except String (List PricePoint)) (now : String) (fail : Row → Bool),
          ∃ e, (get_stock_data ticker period interval force today store fetch now
                  fail).result = .error (.valueError e) ∧
            (get_stock_data ticker period interval force today store fetch now fail).store =
              store ∧
            (get_stock_data ticker period interval force today store fetch now
                fail).fetcherCalled = false)) := by
  refine ⟨?_, ?_, ?_, ?_⟩
  · intro k hy hk
    unfold calculate_date_range
    rw [hy]
    simp only [if_true]
    rw [hk]
  · intro k hy hmo hk
    unfold calculate_date_range
    rw [hy, hmo]
    simp only [Bool.false_eq_true, if_false, if_true]
    rw [hk]
  · intro k hy hmo hd hk
    unfold calculate_date_range
    rw [hy, hmo, hd]
    simp only [Bool.false_eq_true, if_false, if_true]
    rw [hk]
  · intro hy hmo hd
    have hcerr : calculate_date_range period today =
        .error (.valueError "Unsupported period format") := by
      unfold calculate_date_range
      rw [hy, hmo, hd]
      simp only [Bool.false_eq_true, if_false]
    refine ⟨⟨"Unsupported period format", hcerr⟩, ?_⟩
    intro ticker interval force store fetch now fail
    rcases hv : validate_parameters ticker period interval with e | v
    · rcases validate_parameters_error _ _ _ _ hv with ⟨m, rfl⟩
      rw [get_stock_data_invalid ticker period interval force today store fetch now fail _ hv]
      exact ⟨m, rfl, rfl, rfl⟩
    · obtain ⟨tn, p2, i2⟩ := v
      have hv2 := validate_parameters_ok_inv _ _ _ _ hv
      rw [Prod.mk.injEq, Prod.mk.injEq] at hv2
      obtain ⟨htn, hp2, hi2⟩ := hv2
      rw [get_stock_data_reduce ticker period interval tn p2 i2 force today store
        fetch now fail hv, hp2, hcerr]
      exact ⟨"Unsupported period format", rfl, rfl, rfl⟩

/-- Witness for C10: `"2y"` yields the 730-day window ending today; `"3x"` is
rejected. -/
theorem period_window_witness :
    calculate_date_range "2y" 1000 = .ok (1000 - 2 * 365, 1000) ∧
    (∃ e, calculate_date_range "3x" 1000 = .error (.valueError e)) :=
  ⟨(period_window "2y" 1000).1 2 (by decide) (by decide),
    ((period_window "3x" 1000).2.2.2 (by decide) (by decide) (by decide)).1⟩

end Stock
